import Mathlib

/-!
Shallow embedding of `llama_stack/providers/utils/inference/openai_compat.py`:
the completion-stream normalization and tool-call reconciliation engine.

Modelling conventions, fixed once here:
* Python `Optional[T]` fields become `Option T`; Python truthiness of a string
  is `s ≠ ""`, of an optional string `pyTruthyOptStr`, of a list `l ≠ []`.
* Machine floats carry no arithmetic in this module beyond the `temperature == 0`
  comparison, so they are embedded as `Rat`.
* `json.loads` and `json.dumps` are external library calls; they are passed as
  explicit function parameters (`String → JsonResult`, serializer parameters).
  A `JsonResult` distinguishes a decode failure (raises `json.JSONDecodeError`,
  which some call sites catch) from a successful decode that is not an object
  (which fails pydantic validation of `ToolCall.arguments`, never caught where
  only `JSONDecodeError` is handled) from a successful object decode.
* `decode_assistant_message` is the external capability of
  `prompt_adapter` (spec section 6); it is passed as a function parameter.
* A Python exception escaping a function is modelled by an `Option`/`Except`
  result of `none` / `.error ()`.
* `logger.warning` / `warnings.warn` calls are modelled as a `List String` of
  warning messages returned next to the normal result.
* Python's `str.endswith` / `str.startswith` / slicing are rendered over the
  character list of the string (`pyEndsWith`, `pyStartsWith`, `pyStripRight`),
  matching Python code-point semantics.
-/

/-- Python `text.endswith(m)`: `m` is a suffix of `text` (by code points). -/
def pyEndsWith (t m : String) : Bool := m.data.isSuffixOf t.data

/-- Python `text.startswith(m)`: `m` is a leading piece of `text` (by code points). -/
def pyStartsWith (t m : String) : Bool := m.data.isPrefixOf t.data

/-- Python `t[: -n]` for `0 < n`: all but the last `n` code points. -/
def pyStripRight (t : String) (n : Nat) : String := ⟨t.data.take (t.data.length - n)⟩

/-- Python truthiness of an `Optional[str]`: `None` and `""` are falsy. -/
def pyTruthyOptStr (s : Option String) : Bool :=
  match s with
  | none => false
  | some t => t ≠ ""

/-! ## Canonical data model (`llama_stack.models.llama.datatypes`, spec section 3) -/

/-- StopReason: terminal classification of why generation stopped. -/
inductive StopReason where
  | end_of_turn
  | end_of_message
  | out_of_tokens
deriving DecidableEq

/-- Decoded JSON arguments of a tool call. JSON values are opaque to this
module (only decode success and object-ness are inspected), so a decoded
object is an association list with opaque (string-rendered) values. -/
def JsonDict := List (String × String)

deriving instance DecidableEq for JsonDict

/-- Outcome of `json.loads` on an arguments string: a raised
`json.JSONDecodeError`, a successful decode that is not a JSON object, or a
decoded object. -/
inductive JsonResult where
  | decodeError
  | nonDict
  | dict (d : JsonDict)
deriving DecidableEq

/-- TokenLogProbs: `logprobs_by_token` mapping, one instance per position.
The Python `dict` is an insertion-ordered association list with unique keys. -/
structure TokenLogProbs where
  logprobs_by_token : List (String × Rat)
deriving DecidableEq

/-- Insert into a Python-dict-like association list: overwrite in place if the
key exists, else append. -/
def dictInsert (m : List (String × Rat)) (kv : String × Rat) : List (String × Rat) :=
  if m.any (fun p => p.1 == kv.1) then
    m.map (fun p => if p.1 == kv.1 then kv else p)
  else m ++ [kv]

/-- Python dict comprehension over a pair list (later keys overwrite). -/
def dictOfPairs (l : List (String × Rat)) : List (String × Rat) :=
  l.foldl dictInsert []

/-- ToolCall: structured tool invocation. `tool_name` is embedded as the plain
name string (built-in tool enum members are carried by their `.value`). -/
structure ToolCall where
  call_id : String
  tool_name : String
  arguments : JsonDict
  arguments_json : String
deriving DecidableEq

/-- UnparseableToolCall: a ToolCall whose arguments are not valid JSON. -/
structure UnparseableToolCall where
  call_id : String := ""
  tool_name : String := ""
  arguments : String := ""
deriving DecidableEq

/-- Result of `convert_tool_call`: `ToolCall | UnparseableToolCall`. -/
inductive ConvertedToolCall where
  | valid (tc : ToolCall)
  | unparseable (u : UnparseableToolCall)
deriving DecidableEq

def ConvertedToolCall.isUnparseable : ConvertedToolCall → Bool
  | .valid _ => false
  | .unparseable _ => true

def ConvertedToolCall.getValid : ConvertedToolCall → Option ToolCall
  | .valid tc => some tc
  | .unparseable _ => none

/-- ToolParamDefinition record of `ToolDefinition.parameters`. -/
structure ToolParamDefinition where
  param_type : String
  description : Option String := none
  required : Option Bool := none
  default : Option String := none
deriving DecidableEq

/-- ToolDefinition: a caller-declared tool. -/
structure ToolDefinition where
  tool_name : String
  description : Option String := none
  parameters : List (String × ToolParamDefinition) := []
deriving DecidableEq

/-- The request context consumed for tool-call reconciliation: only the
declared tool list is read by this module. -/
structure ChatCompletionRequest where
  tools : List ToolDefinition := []
deriving DecidableEq

/-- Tool names declared by a request, as used by the
`{t.tool_name: t for t in request.tools}` membership checks. -/
def requestToolNames (request : ChatCompletionRequest) : List String :=
  request.tools.map (fun t => t.tool_name)

/-- The assistant message produced by the external `decode_assistant_message`
capability: `text -> {content, tool_calls, stop_reason}` (spec section 6). -/
structure RawMessage where
  content : String
  tool_calls : List ToolCall := []
  stop_reason : Option StopReason := none
deriving DecidableEq

/-- The type of the external `decode_assistant_message` collaborator. Its
first argument is `Option String` because one call site passes
`text_from_choice(choice)`, which can be Python `None`. -/
def DecodeAssistantMessage := Option String → Option StopReason → RawMessage

/-- CompletionMessage (assistant message) of a canonical response. The
embedding keeps `content` textual; `stop_reason` is kept optional because the
streaming decoder can be handed a `None` stop reason. -/
structure CompletionMessage where
  content : String
  stop_reason : Option StopReason
  tool_calls : List ToolCall := []
deriving DecidableEq

/-- Canonical ChatCompletionResponse. -/
structure ChatCompletionResponse where
  completion_message : CompletionMessage
  logprobs : Option (List TokenLogProbs) := none
deriving DecidableEq

/-- Canonical CompletionResponse. -/
structure CompletionResponse where
  stop_reason : StopReason
  content : String
  logprobs : Option (List TokenLogProbs) := none
  prompt_logprobs : Option (List TokenLogProbs) := none
deriving DecidableEq

/-! ## Upstream wire types (`OpenAICompat*`, pydantic models of the source) -/

/-- OpenAICompatCompletionChoiceDelta. -/
structure OpenAICompatCompletionChoiceDelta where
  content : String
deriving DecidableEq

/-- OpenAICompatLogprobs. All four fields are optional with default `None`. -/
structure OpenAICompatLogprobs where
  text_offset : Option (List Nat) := none
  token_logprobs : Option (List Rat) := none
  tokens : Option (List String) := none
  top_logprobs : Option (List (List (String × Rat))) := none
deriving DecidableEq

/-- One vLLM prompt-logprob table entry. The source indexes the keys
`decoded_token` and `logprob` of each value unconditionally, so they are
embedded as present fields. -/
structure VllmPromptLogprobEntry where
  decoded_token : String
  logprob : Rat
deriving DecidableEq

/-- The `prompt_logprobs` payload shape accepted from vLLM. -/
def VllmPromptLogprobs := Option (List (Option (List (String × VllmPromptLogprobEntry))))

/-- The `function` payload of an upstream non-streaming tool call. -/
structure WireFunction where
  name : Option String := none
  arguments : Option String := none
deriving DecidableEq

/-- An upstream non-streaming tool call (`ChatCompletionMessageToolCall` as it
is actually consumed: the fields reached by attribute access). -/
structure WireToolCallFunction where
  id : Option String := none
  function : WireFunction := {}
deriving DecidableEq

/-- The message object read from `choice.message` by
`process_chat_completion_response`. -/
structure CompatChoiceMessage where
  content : Option String := none
  tool_calls : Option (List WireToolCallFunction) := none
deriving DecidableEq

/-- OpenAICompatCompletionChoice. The declared pydantic model has no
`message` field; `process_chat_completion_response` nevertheless reads
`choice.message` from the duck-typed objects providers pass in, so the
embedding carries it as an optional extra attribute (`none` = the attribute is
absent, making `hasattr(choice, "message")` false). -/
structure OpenAICompatCompletionChoice where
  finish_reason : Option String := none
  text : Option String := none
  delta : Option OpenAICompatCompletionChoiceDelta := none
  logprobs : Option OpenAICompatLogprobs := none
  prompt_logprobs : VllmPromptLogprobs := none
  message : Option CompatChoiceMessage := none

/-- OpenAICompatCompletionResponse. -/
structure OpenAICompatCompletionResponse where
  choices : List OpenAICompatCompletionChoice

/-! ## Schema translators -/

/-- `text_from_choice`: prefer `delta.content`, then `message.content` when the
object carries a `message` attribute, else `text`. Can produce Python `None`. -/
def text_from_choice (choice : OpenAICompatCompletionChoice) : Option String :=
  match choice.delta with
  | some d => some d.content
  | none =>
    match choice.message with
    | some m => m.content
    | none => choice.text

/-- `get_stop_reason`: fixed table {stop, eos}→end_of_turn, eom→end_of_message,
length→out_of_tokens, anything else→out_of_tokens. -/
def get_stop_reason (finish_reason : Option String) : StopReason :=
  if finish_reason = some "stop" ∨ finish_reason = some "eos" then .end_of_turn
  else if finish_reason = some "eom" then .end_of_message
  else if finish_reason = some "length" then .out_of_tokens
  else .out_of_tokens

/-- `convert_openai_completion_logprobs`. `hasattr(logprobs, "top_logprobs")`
is always true for the pydantic `OpenAICompatLogprobs` model, so whenever a
logprobs object is present control takes the `top_logprobs` branch; iterating
a `None` `top_logprobs` raises `TypeError` (`.error ()`), and the
selected-token/`tokens` zip branch below it (source lines 223-228) is
unreachable. -/
def convert_openai_completion_logprobs (logprobs : Option OpenAICompatLogprobs) :
    Except Unit (Option (List TokenLogProbs)) :=
  match logprobs with
  | none => .ok none
  | some lp =>
    match lp.top_logprobs with
    | some xs => .ok (some (xs.map (fun x => ⟨x⟩)))
    | none => .error ()

/-- `convert_vllm_completion_prompt_logprobs`. -/
def convert_vllm_completion_prompt_logprobs (prompt_logprobs : VllmPromptLogprobs) :
    Option (List TokenLogProbs) :=
  match prompt_logprobs with
  | none => none
  | some [] => none
  | some l =>
    some (l.filterMap (fun o =>
      o.map (fun table =>
        ⟨dictOfPairs (table.map (fun kv => (kv.2.decoded_token, kv.2.logprob)))⟩)))

/-- `process_completion_response`: non-streaming completion normalizer.
`.error ()` models the exceptions the source lets escape (no first choice,
`None` text hitting `.endswith`, logprobs `TypeError`). -/
def process_completion_response (response : OpenAICompatCompletionResponse) :
    Except Unit CompletionResponse :=
  match response.choices.head? with
  | none => .error ()
  | some choice =>
    match choice.text with
    | none => .error ()
    | some t =>
      match convert_openai_completion_logprobs choice.logprobs with
      | .error _ => .error ()
      | .ok lps =>
        let plp := convert_vllm_completion_prompt_logprobs choice.prompt_logprobs
        if pyEndsWith t "<|eot_id|>" then
          .ok ⟨.end_of_turn, pyStripRight t ("<|eot_id|>".length), lps, plp⟩
        else if pyEndsWith t "<|eom_id|>" then
          .ok ⟨.end_of_message, pyStripRight t ("<|eom_id|>".length), lps, plp⟩
        else
          .ok ⟨get_stop_reason choice.finish_reason, t, lps, plp⟩

/-- `convert_tool_call`: JSON-decode the arguments and build a `ToolCall`; any
exception (missing field, decode failure, non-object arguments) degrades to
`UnparseableToolCall` with `or ""` fallbacks. -/
def convert_tool_call (jsonLoads : String → JsonResult) (tool_call : WireToolCallFunction) :
    ConvertedToolCall :=
  let fallback : ConvertedToolCall := .unparseable
    ⟨tool_call.id.getD "", tool_call.function.name.getD "", tool_call.function.arguments.getD ""⟩
  match tool_call.id, tool_call.function.name, tool_call.function.arguments with
  | some cid, some nm, some args =>
    match jsonLoads args with
    | .dict d => .valid ⟨cid, nm, d, args⟩
    | _ => fallback
  | _, _, _ => fallback

/-! ## Sampling parameters (spec section 3 / 4.1)

Modelled from the spec: the `SamplingParams` datatype itself lives in
`llama_stack.apis.inference`, outside the provided sources; its shape
`{strategy: Greedy | TopP{temperature, top_p} | TopK{top_k}, max_tokens?,
repetition_penalty?, stop?, prompt_logprobs?}` is taken from spec section 3
and from the field accesses in `get_sampling_options` /
`_convert_openai_sampling_params`. -/

inductive SamplingStrategy where
  | greedy
  | topP (temperature : Rat) (top_p : Rat)
  | topK (top_k : Nat)
deriving DecidableEq

/-- Modelled from the spec: canonical SamplingParams (spec section 3). -/
structure SamplingParams where
  strategy : SamplingStrategy := .greedy
  max_tokens : Option Nat := none
  repetition_penalty : Option Rat := none
  stop : Option (List String) := none
  prompt_logprobs : Option Int := none
deriving DecidableEq

/-- The wire-format options dict assembled by `get_sampling_options`
(an absent key is `none`). -/
structure WireSamplingOptions where
  temperature : Option Rat := none
  top_p : Option Rat := none
  top_k : Option Nat := none
  max_tokens : Option Nat := none
  repeat_penalty : Option Rat := none
  stop : Option (List String) := none
  prompt_logprobs : Option Int := none
deriving DecidableEq

/-- `get_sampling_strategy_options`. -/
def get_sampling_strategy_options (params : SamplingParams) : WireSamplingOptions :=
  match params.strategy with
  | .greedy => { temperature := some 0 }
  | .topP t p => { temperature := some t, top_p := some p }
  | .topK k => { top_k := some k }

/-- `get_sampling_options`. -/
def get_sampling_options (params : Option SamplingParams) : WireSamplingOptions :=
  match params with
  | none => {}
  | some p =>
    let o := get_sampling_strategy_options p
    let o := match p.max_tokens with
      | some m => if m ≠ 0 then { o with max_tokens := some m } else o
      | none => o
    let o := match p.repetition_penalty with
      | some r => if r ≠ 1 then { o with repeat_penalty := some r } else o
      | none => o
    let o := match p.stop with
      | some s => { o with stop := some s }
      | none => o
    match p.prompt_logprobs with
    | some n => { o with prompt_logprobs := some n }
    | none => o

/-- `_convert_openai_sampling_params`. -/
def _convert_openai_sampling_params (max_tokens : Option Nat) (temperature : Option Rat)
    (top_p : Option Rat) : SamplingParams :=
  let sp : SamplingParams := {}
  let sp := match max_tokens with
    | some m => if m ≠ 0 then { sp with max_tokens := some m } else sp
    | none => sp
  let strategy :=
    match temperature with
    | some t =>
      if t = 0 then SamplingStrategy.greedy
      else SamplingStrategy.topP t (match top_p with | some p => p | none => 1)
    | none => SamplingStrategy.topP 1 (match top_p with | some p => p | none => 1)
  { sp with strategy := strategy }

/-- Round trip of spec section 8: canonical params to wire options and back
through the max_tokens/temperature/top_p triple. -/
def roundtripSamplingParams (params : SamplingParams) : SamplingParams :=
  let o := get_sampling_options (some params)
  _convert_openai_sampling_params o.max_tokens o.temperature o.top_p

/-! ## Canonical streaming event model -/

/-- ChatCompletionResponseEventType. -/
inductive ChatCompletionResponseEventType where
  | start
  | progress
  | complete
deriving DecidableEq

/-- ToolCallParseStatus. -/
inductive ToolCallParseStatus where
  | started
  | in_progress
  | succeeded
  | failed
deriving DecidableEq

/-- The `tool_call` payload of a ToolCallDelta: either a raw string fragment
or a structured `ToolCall`. -/
inductive ToolCallPayload where
  | text (s : String)
  | call (tc : ToolCall)
deriving DecidableEq

/-- The event delta: TextDelta or ToolCallDelta. -/
inductive Delta where
  | textDelta (text : String)
  | toolCallDelta (tool_call : ToolCallPayload) (parse_status : ToolCallParseStatus)
deriving DecidableEq

/-- ChatCompletionResponseEvent. The stream-chunk wrapper
`ChatCompletionResponseStreamChunk(event=...)` adds nothing, so the embedding
works with the bare events. -/
structure ChatCompletionResponseEvent where
  event_type : ChatCompletionResponseEventType
  delta : Delta
  stop_reason : Option StopReason := none
  logprobs : Option (List TokenLogProbs) := none
deriving DecidableEq

/-- The single `start` event both streaming machines emit first. -/
def startEvent : ChatCompletionResponseEvent :=
  ⟨.start, .textDelta "", none, none⟩

/-- The single `complete` event both streaming machines emit last. -/
def completeEvent (stop_reason : Option StopReason) : ChatCompletionResponseEvent :=
  ⟨.complete, .textDelta "", stop_reason, none⟩

/-- Shorthand for a progress event (every mid-stream event of both machines
has `event_type = progress`). -/
def progressEv (delta : Delta) (stop_reason : Option StopReason)
    (logprobs : Option (List TokenLogProbs)) : ChatCompletionResponseEvent :=
  ⟨.progress, delta, stop_reason, logprobs⟩

/-! ## Streaming reconstruction state machine, text-marker case
(`process_chat_completion_stream_response`, spec section 4.3)

Streams are finite chunk lists. The source reads only `chunk.choices[0]` and
notes "assuming only one choice per chunk"; a chunk is embedded as its first
choice. -/

/-- Loop state of `process_chat_completion_stream_response`. -/
structure ProcState where
  buffer : String
  ipython : Bool
  stop_reason : Option StopReason
deriving DecidableEq

/-- Python truthiness of `choice.finish_reason` (`None` and `""` falsy). -/
def truthyFinish (choice : OpenAICompatCompletionChoice) : Bool :=
  pyTruthyOptStr choice.finish_reason

/-- One iteration of the `async for chunk in stream` loop. Returns the state,
the events yielded for this chunk, and whether the loop breaks. -/
def procStep (choice : OpenAICompatCompletionChoice) (st : ProcState) :
    ProcState × List ChatCompletionResponseEvent × Bool :=
  if truthyFinish choice then
    let fr := choice.finish_reason.getD ""
    let sr :=
      if st.stop_reason = none ∧ (fr = "stop" ∨ fr = "eos" ∨ fr = "eos_token") then
        some StopReason.end_of_turn
      else if st.stop_reason = none ∧ fr = "length" then some StopReason.out_of_tokens
      else st.stop_reason
    ({ st with stop_reason := sr }, [], true)
  else
    let text? := text_from_choice choice
    if pyTruthyOptStr text? = false then (st, [], false)
    else
      let text := text?.getD ""
      if st.ipython = false ∧ pyStartsWith text "<|python_tag|>" then
        ({ st with ipython := true, buffer := st.buffer ++ text },
         [progressEv (.toolCallDelta (.text "") .started) none none], false)
      else if text = "<|eot_id|>" then
        ({ st with stop_reason := some .end_of_turn }, [], false)
      else if text = "<|eom_id|>" then
        ({ st with stop_reason := some .end_of_message }, [], false)
      else if st.ipython then
        ({ st with buffer := st.buffer ++ text },
         [progressEv (.toolCallDelta (.text text) .in_progress) st.stop_reason none], false)
      else
        ({ st with buffer := st.buffer ++ text },
         [progressEv (.textDelta text) st.stop_reason none], false)

/-- The chunk loop: processes chunks in order until a break or end of stream. -/
def procLoop (chunks : List OpenAICompatCompletionChoice) (st : ProcState) :
    ProcState × List ChatCompletionResponseEvent :=
  match chunks with
  | [] => (st, [])
  | c :: rest =>
    match procStep c st with
    | (st2, evs, true) => (st2, evs)
    | (st2, evs, false) =>
      let (st3, evs2) := procLoop rest st2
      (st3, evs ++ evs2)

/-- End-of-stream finalization: decode the accumulated buffer, emit the
parse-failure event, one event per decoded tool call, plus warnings for tools
absent from the request. -/
def procFinalize (decode : DecodeAssistantMessage) (request : ChatCompletionRequest)
    (st : ProcState) : List ChatCompletionResponseEvent × List String :=
  let message := decode (some st.buffer) st.stop_reason
  let failedEvs :=
    if st.ipython ∧ message.tool_calls = [] then
      [progressEv (.toolCallDelta (.text "") .failed) st.stop_reason none]
    else []
  let toolEvs := message.tool_calls.map (fun tc =>
    if (requestToolNames request).contains tc.tool_name then
      progressEv (.toolCallDelta (.call tc) .succeeded) st.stop_reason none
    else
      progressEv (.toolCallDelta (.text st.buffer) .failed) st.stop_reason none)
  let warns := (message.tool_calls.filter
      (fun tc => !(requestToolNames request).contains tc.tool_name)).map
    (fun tc => "Tool " ++ tc.tool_name ++ " not found in request tools")
  (failedEvs ++ toolEvs, warns)

/-- `process_chat_completion_stream_response`: the canonical event sequence
(and warning log) produced for a finite chunk stream. -/
def process_chat_completion_stream_response (decode : DecodeAssistantMessage)
    (stream : List OpenAICompatCompletionChoice) (request : ChatCompletionRequest) :
    List ChatCompletionResponseEvent × List String :=
  let (st, loopEvs) := procLoop stream ⟨"", false, none⟩
  let (finEvs, warns) := procFinalize decode request st
  (startEvent :: (loopEvs ++ finEvs ++ [completeEvent st.stop_reason]), warns)

/-! ## Streaming reconstruction, wire-incremental variant
(`convert_openai_chat_completion_stream`, spec section 4.4)

The upstream chunk (`OpenAIChatCompletionChunk`) is embedded as its first
choice, per the source comment "assuming only one choice per chunk". -/

/-- OpenAI `TopLogprob`. -/
structure TopLogprob where
  token : String
  logprob : Rat
deriving DecidableEq

/-- OpenAI `ChatCompletionTokenLogprob`. -/
structure ChatCompletionTokenLogprob where
  token : String
  logprob : Rat
  top_logprobs : List TopLogprob := []
deriving DecidableEq

/-- OpenAI `ChoiceLogprobs` (chat completion). -/
structure OpenAIChoiceLogprobs where
  content : Option (List ChatCompletionTokenLogprob) := none
deriving DecidableEq

/-- OpenAI `ChoiceDeltaToolCallFunction`. -/
structure OpenAIChoiceDeltaToolCallFunction where
  name : Option String := none
  arguments : Option String := none
deriving DecidableEq

/-- OpenAI `ChoiceDeltaToolCall`: one tool-call fragment of a delta. -/
structure OpenAIChoiceDeltaToolCall where
  index : Nat
  id : Option String := none
  function : Option OpenAIChoiceDeltaToolCallFunction := none
deriving DecidableEq

/-- OpenAI `ChoiceDelta`. -/
structure OpenAIChoiceDelta where
  content : Option String := none
  tool_calls : Option (List OpenAIChoiceDeltaToolCall) := none
deriving DecidableEq

/-- OpenAI chat-completion-chunk `Choice`. -/
structure OpenAIChatCompletionChunkChoice where
  delta : OpenAIChoiceDelta
  finish_reason : Option String := none
  logprobs : Option OpenAIChoiceLogprobs := none
deriving DecidableEq

/-- `_convert_openai_finish_reason`: dict lookup with default
`end_of_turn`; in particular a `None` finish_reason maps to `end_of_turn`,
and the result (an enum member) is always truthy. -/
def _convert_openai_finish_reason (finish_reason : Option String) : StopReason :=
  if finish_reason = some "stop" then .end_of_turn
  else if finish_reason = some "length" then .out_of_tokens
  else if finish_reason = some "tool_calls" then .end_of_message
  else .end_of_turn

/-- `_convert_openai_logprobs`: `None` or empty `content` maps to no
log-probabilities; otherwise one `TokenLogProbs` per position from the
top-logprob dict comprehension. -/
def _convert_openai_logprobs (logprobs : Option OpenAIChoiceLogprobs) :
    Option (List TokenLogProbs) :=
  match logprobs with
  | none => none
  | some l =>
    match l.content with
    | none => none
    | some [] => none
    | some cs =>
      some (cs.map (fun c =>
        ⟨dictOfPairs (c.top_logprobs.map (fun t => (t.token, t.logprob)))⟩))

/-- `_convert_openai_tool_calls` applied to one streaming delta fragment, as
the non-incremental branch does via `_convert_openai_tool_calls([tool_call])[0]`.
The delta fragment's `id`/`function`/`name`/`arguments` may all be `None`;
any missing field or arguments that fail to decode to an object raise out of
the generator (`none`). -/
def _convert_openai_tool_calls_one (jsonLoads : String → JsonResult)
    (tc : OpenAIChoiceDeltaToolCall) : Option ToolCall :=
  match tc.function with
  | none => none
  | some f =>
    match tc.id, f.name, f.arguments with
    | some cid, some nm, some args =>
      match jsonLoads args with
      | .dict d => some ⟨cid, nm, d, args⟩
      | _ => none
    | _, _, _ => none

/-- The per-index tool-call assembly buffer (spec section 3). -/
structure ToolCallBuffer where
  call_id : Option String
  name : Option String
  arguments : String
  content : String
deriving DecidableEq

/-- Association-list lookup keyed by the chunk-local tool-call index. -/
def lookupBuf (bs : List (Nat × ToolCallBuffer)) (i : Nat) : Option ToolCallBuffer :=
  match bs with
  | [] => none
  | (j, b) :: rest => if j = i then some b else lookupBuf rest i

/-- In-place update of the buffer stored at an index (Python dict mutation;
insertion order is preserved). -/
def updateBuf (bs : List (Nat × ToolCallBuffer)) (i : Nat) (b : ToolCallBuffer) :
    List (Nat × ToolCallBuffer) :=
  match bs with
  | [] => []
  | (j, c) :: rest => if j = i then (i, b) :: rest else (j, c) :: updateBuf rest i b

/-- Generator-level state of `convert_openai_chat_completion_stream`.
`last_delta` embeds the Python local variable `delta`: it starts unassigned
(`none`) and keeps its last assigned value across loop iterations; yielding it
while unassigned raises `UnboundLocalError`. -/
structure ConvState where
  stop_reason : Option StopReason
  buffers : List (Nat × ToolCallBuffer)
  last_delta : Option String
deriving DecidableEq

/-- Processing of one tool-call fragment in incremental mode (source lines
1121-1154). `none` models the `UnboundLocalError` raised when the yield reads
`delta` without any prior assignment. -/
def convProcessFragmentIncr (lps : Option (List TokenLogProbs))
    (tc : OpenAIChoiceDeltaToolCall) (st : ConvState) :
    Option (ConvState × List ChatCompletionResponseEvent) :=
  let i := tc.index
  let bs :=
    match lookupBuf st.buffers i with
    | some _ => st.buffers
    | none => st.buffers ++ [(i, ⟨tc.id, none, "", ""⟩)]
  let buffer := (lookupBuf bs i).getD ⟨tc.id, none, "", ""⟩
  match tc.function with
  | none => some ({ st with buffers := bs }, [])
  | some f =>
    let step1 :=
      match f.name with
      | some nm =>
        if nm ≠ "" then
          ({ buffer with name := some nm, content := buffer.content ++ (nm ++ "(") },
           some (nm ++ "("))
        else (buffer, st.last_delta)
      | none => (buffer, st.last_delta)
    let step2 :=
      match f.arguments with
      | some args =>
        if args ≠ "" then
          ({ step1.1 with arguments := step1.1.arguments ++ args,
                          content := step1.1.content ++ args },
           some args)
        else step1
      | none => step1
    match step2.2 with
    | none => none
    | some d =>
      some ({ st with buffers := updateBuf bs i step2.1, last_delta := some d },
            [progressEv (.toolCallDelta (.text d) .in_progress) none lps])

/-- Fold `convProcessFragmentIncr` over the fragments of one delta. -/
def convFragmentsIncr (lps : Option (List TokenLogProbs))
    (tcs : List OpenAIChoiceDeltaToolCall) (st : ConvState) :
    Option (ConvState × List ChatCompletionResponseEvent) :=
  match tcs with
  | [] => some (st, [])
  | tc :: rest =>
    match convProcessFragmentIncr lps tc st with
    | none => none
    | some (st2, evs) =>
      match convFragmentsIncr lps rest st2 with
      | none => none
      | some (st3, evs2) => some (st3, evs ++ evs2)

/-- The non-incremental branch: one `succeeded` event per fragment, converted
eagerly (exceptions propagate). -/
def convFragmentsNonIncr (jsonLoads : String → JsonResult)
    (lps : Option (List TokenLogProbs)) (tcs : List OpenAIChoiceDeltaToolCall) :
    Option (List ChatCompletionResponseEvent) :=
  match tcs with
  | [] => some []
  | tc :: rest =>
    match _convert_openai_tool_calls_one jsonLoads tc with
    | none => none
    | some conv =>
      match convFragmentsNonIncr jsonLoads lps rest with
      | none => none
      | some evs =>
        some (progressEv (.toolCallDelta (.call conv) .succeeded) none lps :: evs)

/-- The warning text of source line 1104. -/
def multipleToolCallsWarning : String :=
  "multiple tool calls found in a single delta, using the first, ignoring the rest"

/-- Processing of one chunk of the incremental stream (the loop body, source
lines 1079-1162). Returns state, events, warnings; `none` models a raised
exception. -/
def convProcessChunk (jsonLoads : String → JsonResult)
    (enable_incremental_tool_calls : Bool) (choice : OpenAIChatCompletionChunkChoice)
    (st : ConvState) :
    Option (ConvState × List ChatCompletionResponseEvent × List String) :=
  let st := { st with
    stop_reason := some (_convert_openai_finish_reason choice.finish_reason) }
  let lps := _convert_openai_logprobs choice.logprobs
  match choice.delta.tool_calls with
  | some (tc :: tcs) =>
    let contentEvs :=
      if pyTruthyOptStr choice.delta.content then
        [progressEv (.textDelta (choice.delta.content.getD "")) none lps]
      else []
    let warns := if (tc :: tcs).length > 1 then [multipleToolCallsWarning] else []
    if enable_incremental_tool_calls then
      match convFragmentsIncr lps (tc :: tcs) st with
      | none => none
      | some (st2, evs) => some (st2, contentEvs ++ evs, warns)
    else
      match convFragmentsNonIncr jsonLoads lps (tc :: tcs) with
      | none => none
      | some evs => some (st, contentEvs ++ evs, warns)
  | _ =>
    if pyTruthyOptStr choice.delta.content then
      some (st, [progressEv (.textDelta (choice.delta.content.getD "")) none lps], [])
    else some (st, [], [])

/-- The chunk loop of the incremental converter. -/
def convLoop (jsonLoads : String → JsonResult) (enable_incremental_tool_calls : Bool)
    (chunks : List OpenAIChatCompletionChunkChoice) (st : ConvState) :
    Option (ConvState × List ChatCompletionResponseEvent × List String) :=
  match chunks with
  | [] => some (st, [], [])
  | c :: rest =>
    match convProcessChunk jsonLoads enable_incremental_tool_calls c st with
    | none => none
    | some (st2, evs, ws) =>
      match convLoop jsonLoads enable_incremental_tool_calls rest st2 with
      | none => none
      | some (st3, evs2, ws2) => some (st3, evs ++ evs2, ws ++ ws2)

/-- End-of-stream finalization of one buffer (source lines 1164-1209): close
the display content with `")"`, decode the accumulated arguments, and emit the
terminal `succeeded`/`failed` event. A decode success that is not an object,
or a missing `call_id` on success, raises (`none`): only
`json.JSONDecodeError` is caught there. -/
def convFinalizeBuf (jsonLoads : String → JsonResult) (stop_reason : Option StopReason)
    (b : ToolCallBuffer) : Option (List ChatCompletionResponseEvent) :=
  if pyTruthyOptStr b.name then
    let nm := b.name.getD ""
    let closeEv := progressEv (.toolCallDelta (.text ")") .in_progress) none none
    let content2 := b.content ++ ")"
    match jsonLoads b.arguments with
    | .dict d =>
      match b.call_id with
      | some cid =>
        some [closeEv,
              progressEv (.toolCallDelta (.call ⟨cid, nm, d, b.arguments⟩) .succeeded)
                stop_reason none]
      | none => none
    | .nonDict => none
    | .decodeError =>
      some [closeEv,
            progressEv (.toolCallDelta (.text content2) .failed) stop_reason none]
  else some []

/-- Finalize every buffer, in insertion order. -/
def convFinalize (jsonLoads : String → JsonResult) (stop_reason : Option StopReason)
    (bufs : List (Nat × ToolCallBuffer)) : Option (List ChatCompletionResponseEvent) :=
  match bufs with
  | [] => some []
  | (_, b) :: rest =>
    match convFinalizeBuf jsonLoads stop_reason b with
    | none => none
    | some evs =>
      match convFinalize jsonLoads stop_reason rest with
      | none => none
      | some evs2 => some (evs ++ evs2)

/-- `convert_openai_chat_completion_stream`: the canonical event sequence (and
warning log) produced for a finite chunk stream, or `none` when an exception
escapes the generator. -/
def convert_openai_chat_completion_stream (jsonLoads : String → JsonResult)
    (enable_incremental_tool_calls : Bool)
    (stream : List OpenAIChatCompletionChunkChoice) :
    Option (List ChatCompletionResponseEvent × List String) :=
  match convLoop jsonLoads enable_incremental_tool_calls stream ⟨none, [], none⟩ with
  | none => none
  | some (st, evs, warns) =>
    match convFinalize jsonLoads st.stop_reason st.buffers with
    | none => none
    | some finEvs =>
      some (startEvent :: (evs ++ finEvs ++ [completeEvent st.stop_reason]), warns)

/-! ## Non-streaming chat normalizer (`process_chat_completion_response`) -/

/-- `process_chat_completion_response`. `dumps` is the external
`json.dumps(tool_calls, default=lambda x: x.model_dump())` serializer.
`none` models the exceptions the source raises or lets escape (no first
choice, the `ValueError` for missing tool calls, constructing a
`CompletionMessage` whose content would be Python `None`). The second result
component is the warning log. -/
def process_chat_completion_response (jsonLoads : String → JsonResult)
    (dumps : List ConvertedToolCall → String) (decode : DecodeAssistantMessage)
    (response : OpenAICompatCompletionResponse) (request : ChatCompletionRequest) :
    Option (ChatCompletionResponse × List String) :=
  match response.choices.head? with
  | none => none
  | some choice =>
    if choice.finish_reason = some "tool_calls" then
      match choice.message with
      | none => none
      | some msg =>
        match msg.tool_calls with
        | none => none
        | some [] => none
        | some (tc :: tcs) =>
          let tool_calls := (tc :: tcs).map (convert_tool_call jsonLoads)
          if tool_calls.any (fun c => c.isUnparseable) then
            some (⟨⟨dumps tool_calls, some .end_of_turn, []⟩, none⟩, [])
          else
            some (⟨⟨"", some .end_of_turn, tool_calls.filterMap (fun c => c.getValid)⟩,
                   none⟩, [])
    else
      let raw := decode (text_from_choice choice)
        (some (get_stop_reason choice.finish_reason))
      let outcome :
          Option String × List ToolCall × List String :=
        if raw.tool_calls ≠ [] then
          if request.tools = [] then
            (text_from_choice choice, [], [])
          else
            let names := requestToolNames request
            let kept := raw.tool_calls.filter (fun t => names.contains t.tool_name)
            let warns := (raw.tool_calls.filter (fun t => !names.contains t.tool_name)).map
              (fun t => "Tool " ++ t.tool_name ++ " not found in request tools")
            if kept.length < raw.tool_calls.length then
              (text_from_choice choice, kept, warns)
            else (some raw.content, raw.tool_calls, warns)
        else (some raw.content, raw.tool_calls, [])
      match outcome.1 with
      | none => none
      | some content =>
        some (⟨⟨content, raw.stop_reason, outcome.2.1⟩, none⟩, outcome.2.2)

/-! ## Event predicates shared by the streaming claims -/

/-- Recognizes the lifecycle `start` event. -/
def isStartEv (e : ChatCompletionResponseEvent) : Bool :=
  match e.event_type with
  | .start => true
  | _ => false

/-- Recognizes the lifecycle `complete` event. -/
def isCompleteEv (e : ChatCompletionResponseEvent) : Bool :=
  match e.event_type with
  | .complete => true
  | _ => false

/-- A mid-stream event: `event_type = progress`. -/
def progressOnly (evs : List ChatCompletionResponseEvent) : Prop :=
  ∀ e ∈ evs, e.event_type = ChatCompletionResponseEventType.progress

/-- The lifecycle invariant of spec section 3 / 8: exactly one `start` and one
`complete`, the `start` first with empty text, the `complete` last with empty
text. -/
def streamEventInvariant (evs : List ChatCompletionResponseEvent) : Prop :=
  evs.head? = some startEvent ∧
  (∃ sr, evs.getLast? = some (completeEvent sr)) ∧
  (evs.filter isStartEv).length = 1 ∧
  (evs.filter isCompleteEv).length = 1

/-- String payloads of the `in_progress` tool-call events, in order. -/
def inProgressPayloads (evs : List ChatCompletionResponseEvent) : List String :=
  evs.filterMap (fun e =>
    match e.delta with
    | .toolCallDelta (.text s) .in_progress => some s
    | _ => none)

/-- Concatenation of a list of strings. -/
def concatStrings (l : List String) : String := l.foldl (fun a b => a ++ b) ""

/-! ## Shared concrete inputs for witnesses and counterexamples -/

/-- A `json.loads` instance on which every decode raises `JSONDecodeError`. -/
def jsonLoadsFail : String → JsonResult := fun _ => .decodeError

/-- A trivial instance of the external assistant-message decoder. -/
def decodeTrivial : DecodeAssistantMessage := fun _ _ => ⟨"", [], none⟩

/-- A tool-call fragment whose `function` carries neither a name nor
arguments. -/
def emptyFunctionFragment : OpenAIChoiceDeltaToolCall := ⟨0, some "id0", some ⟨none, none⟩⟩

/-- A chunk carrying only `emptyFunctionFragment`. -/
def emptyFunctionChunk : OpenAIChatCompletionChunkChoice :=
  ⟨⟨none, some [emptyFunctionFragment]⟩, none, none⟩

/-- C2, witness: `Scenario C` of the spec, raw text `"hello<|eot_id|>"` with
`finish_reason="stop"` normalizes to content `"hello"`, `end_of_turn`. -/
def choiceScenarioC : OpenAICompatCompletionChoice :=
  { finish_reason := some "stop", text := some "hello<|eot_id|>" }

/-! ## C8: sampling-parameter round trip -/

/-- A canonical params record with a TopK strategy. -/
def samplingTopK5 : SamplingParams := { strategy := .topK 5 }

/-! ## C9: log-probability translators -/

/-- The selected-token/probability shape (Together `top_k=1`): `tokens` and
`token_logprobs` populated, `top_logprobs` absent. -/
def togetherShapeLogprobs : OpenAICompatLogprobs :=
  { token_logprobs := some [-(1 : Rat)/2], tokens := some ["a"] }

/-! ## C4: parallel tool-call fragments in one delta -/

/-- Fragment at index 0 carrying function name `f`. -/
def parallelFragment0 : OpenAIChoiceDeltaToolCall := ⟨0, some "id0", some ⟨some "f", none⟩⟩

/-- Fragment at index 1 carrying function name `g`. -/
def parallelFragment1 : OpenAIChoiceDeltaToolCall := ⟨1, some "id1", some ⟨some "g", none⟩⟩

/-- One delta carrying both fragments (Scenario E of the spec). -/
def parallelChunk : OpenAIChatCompletionChunkChoice :=
  ⟨⟨none, some [parallelFragment0, parallelFragment1]⟩, none, none⟩

/-! ## C5: stop-reason resolution -/

/-- A chunk whose finish_reason is `"length"`. -/
def lengthFinishChunk : OpenAIChatCompletionChunkChoice := ⟨⟨none, none⟩, some "length", none⟩

/-- A chunk whose finish_reason is null. -/
def nullFinishChunk : OpenAIChatCompletionChunkChoice := ⟨⟨none, none⟩, none, none⟩

/-- A chunk with finish_reason `"stop"` for the text-marker machine. -/
def stopFinishChoice : OpenAICompatCompletionChoice := { finish_reason := some "stop" }

/-- A text chunk for the text-marker machine. -/
def plainTextChoice : OpenAICompatCompletionChoice := { text := some "x" }

/-- Scenario A inputs: two tool calls whose arguments decode to objects. -/
def jsonLoadsEmptyObj : String → JsonResult := fun s =>
  if s = "A" then .dict [] else .decodeError

def scenarioAToolCall1 : WireToolCallFunction := ⟨some "1", ⟨some "t1", some "A"⟩⟩

def scenarioAToolCall2 : WireToolCallFunction := ⟨some "2", ⟨some "t2", some "A"⟩⟩

def scenarioAChoice : OpenAICompatCompletionChoice :=
  { finish_reason := some "tool_calls",
    message := some ⟨none, some [scenarioAToolCall1, scenarioAToolCall2]⟩ }

/-- A decoder instance returning one decoded tool call (Scenario B). -/
def decodeWithToolCall : DecodeAssistantMessage := fun _ _ =>
  ⟨"decoded content", [⟨"c1", "t1", [], "A"⟩], some .end_of_turn⟩

def scenarioBChoice : OpenAICompatCompletionChoice := { text := some "raw text" }

/-- A chunk carrying no tool-call fragments. -/
def chunkNoToolCalls (c : OpenAIChatCompletionChunkChoice) : Prop :=
  c.delta.tool_calls = none ∨ c.delta.tool_calls = some []

/-- A chunk whose only tool-call fragment carries the function name (and no
arguments) for index `i`, with a present fragment id. -/
def chunkNameOnlyAt (i : Nat) (cid nm : String) (c : OpenAIChatCompletionChunkChoice) :
    Prop :=
  c.delta.tool_calls = some [⟨i, some cid, some ⟨some nm, none⟩⟩]

/-- A chunk whose only tool-call fragment carries argument text `a` (and no
name) for index `i`. -/
def chunkArgOnlyAt (i : Nat) (a : String) (c : OpenAIChatCompletionChunkChoice) : Prop :=
  ∃ fid, c.delta.tool_calls = some [⟨i, fid, some ⟨none, some a⟩⟩]

/-- The argument fragment received in a chunk, when its delta carries exactly
one tool-call fragment with argument text. -/
def argOfChunk (c : OpenAIChatCompletionChunkChoice) : Option String :=
  match c.delta.tool_calls with
  | some [tc] => tc.function.bind (fun f => f.arguments)
  | _ => none

/-- All argument fragments received across a chunk list, in order. -/
def argsOfChunks (cs : List OpenAIChatCompletionChunkChoice) : List String :=
  cs.filterMap argOfChunk

/-- A delta fragment that carries the function name and non-empty argument
text at once. -/
def combinedFragmentChunk : OpenAIChatCompletionChunkChoice :=
  ⟨⟨none, some [⟨0, some "id0", some ⟨some "foo", some "arg"⟩⟩]⟩, none, none⟩

def nameChunkEx : OpenAIChatCompletionChunkChoice :=
  ⟨⟨none, some [⟨0, some "id0", some ⟨some "foo", none⟩⟩]⟩, none, none⟩

def argChunkEx1 : OpenAIChatCompletionChunkChoice :=
  ⟨⟨none, some [⟨0, none, some ⟨none, some "x="⟩⟩]⟩, none, none⟩

def argChunkEx2 : OpenAIChatCompletionChunkChoice :=
  ⟨⟨none, some [⟨0, none, some ⟨none, some "1"⟩⟩]⟩, none, none⟩

/-! ## Shared lemmas about the lifecycle shape of the event sequences -/

lemma progressOnly_nil : progressOnly [] := by
  intro e he
  simp at he

lemma progressOnly_append {a b : List ChatCompletionResponseEvent}
    (ha : progressOnly a) (hb : progressOnly b) : progressOnly (a ++ b) := by
  intro e he
  rcases List.mem_append.mp he with h | h
  · exact ha e h
  · exact hb e h

lemma isStartEv_of_progress {e : ChatCompletionResponseEvent}
    (h : e.event_type = ChatCompletionResponseEventType.progress) : isStartEv e = false := by
  simp [isStartEv, h]

lemma isCompleteEv_of_progress {e : ChatCompletionResponseEvent}
    (h : e.event_type = ChatCompletionResponseEventType.progress) : isCompleteEv e = false := by
  simp [isCompleteEv, h]

/-- Any event list of the shape `start :: mid ++ [complete]` with only
progress events in between satisfies the lifecycle invariant. -/
lemma streamEventInvariant_shape (mid : List ChatCompletionResponseEvent)
    (sr : Option StopReason) (h : progressOnly mid) :
    streamEventInvariant (startEvent :: (mid ++ [completeEvent sr])) := by
  have hmidStart : mid.filter isStartEv = [] :=
    List.filter_eq_nil_iff.mpr (fun e he => by simp [isStartEv_of_progress (h e he)])
  have hmidComplete : mid.filter isCompleteEv = [] :=
    List.filter_eq_nil_iff.mpr (fun e he => by simp [isCompleteEv_of_progress (h e he)])
  refine ⟨rfl, ⟨sr, ?_⟩, ?_, ?_⟩
  · rw [show startEvent :: (mid ++ [completeEvent sr])
        = (startEvent :: mid) ++ [completeEvent sr] by simp,
        List.getLast?_concat]
  · simp [List.filter_append, hmidStart, startEvent, isStartEv, completeEvent, isCompleteEv]
  · simp [List.filter_append, hmidComplete, startEvent, isStartEv, completeEvent, isCompleteEv]

lemma procStep_progressOnly (c : OpenAICompatCompletionChoice) (st : ProcState) :
    progressOnly (procStep c st).2.1 := by
  dsimp only [procStep]
  repeat' split
  all_goals intro e he
  all_goals first
    | exact (List.not_mem_nil e he).elim
    | (rw [List.mem_singleton] at he; subst he; rfl)

lemma procLoop_progressOnly (chunks : List OpenAICompatCompletionChoice) (st : ProcState) :
    progressOnly (procLoop chunks st).2 := by
  induction chunks generalizing st with
  | nil => exact progressOnly_nil
  | cons c rest ih =>
    have hstep := procStep_progressOnly c st
    unfold procLoop
    rcases h : procStep c st with ⟨st2, evs, brk⟩
    rw [h] at hstep
    cases brk
    · simpa using progressOnly_append hstep (ih st2)
    · simpa using hstep

lemma procFinalize_progressOnly (decode : DecodeAssistantMessage)
    (request : ChatCompletionRequest) (st : ProcState) :
    progressOnly (procFinalize decode request st).1 := by
  unfold procFinalize
  intro e he
  simp only [List.mem_append] at he
  rcases he with he | he
  · split at he
    · simp only [List.mem_singleton] at he
      subst he
      rfl
    · simp at he
  · simp only [List.mem_map] at he
    obtain ⟨tc, _, rfl⟩ := he
    split <;> rfl

lemma convProcessFragmentIncr_progressOnly {lps : Option (List TokenLogProbs)}
    {tc : OpenAIChoiceDeltaToolCall} {st : ConvState}
    {r : ConvState × List ChatCompletionResponseEvent}
    (h : convProcessFragmentIncr lps tc st = some r) : progressOnly r.2 := by
  dsimp only [convProcessFragmentIncr] at h
  repeat' split at h
  all_goals first
    | exact Option.noConfusion h
    | (injection h with h2; subst h2; intro e he;
       first
        | exact (List.not_mem_nil e he).elim
        | (rw [List.mem_singleton] at he; subst he; rfl))

lemma convFragmentsIncr_progressOnly {lps : Option (List TokenLogProbs)}
    {tcs : List OpenAIChoiceDeltaToolCall} {st : ConvState}
    {r : ConvState × List ChatCompletionResponseEvent}
    (h : convFragmentsIncr lps tcs st = some r) : progressOnly r.2 := by
  induction tcs generalizing st r with
  | nil =>
    dsimp only [convFragmentsIncr] at h
    injection h with h2
    subst h2
    exact progressOnly_nil
  | cons tc rest ih =>
    dsimp only [convFragmentsIncr] at h
    rcases h1 : convProcessFragmentIncr lps tc st with _ | ⟨st2, evs⟩ <;> simp only [h1] at h
    · exact Option.noConfusion h
    · rcases h2 : convFragmentsIncr lps rest st2 with _ | ⟨st3, evs2⟩ <;> simp only [h2] at h
      · exact Option.noConfusion h
      · injection h with h3
        subst h3
        exact progressOnly_append (convProcessFragmentIncr_progressOnly h1) (ih h2)

lemma convFragmentsNonIncr_progressOnly {jsonLoads : String → JsonResult}
    {lps : Option (List TokenLogProbs)} {tcs : List OpenAIChoiceDeltaToolCall}
    {r : List ChatCompletionResponseEvent}
    (h : convFragmentsNonIncr jsonLoads lps tcs = some r) : progressOnly r := by
  induction tcs generalizing r with
  | nil =>
    dsimp only [convFragmentsNonIncr] at h
    injection h with h2
    subst h2
    exact progressOnly_nil
  | cons tc rest ih =>
    dsimp only [convFragmentsNonIncr] at h
    rcases h1 : _convert_openai_tool_calls_one jsonLoads tc with _ | conv <;> simp only [h1] at h
    · exact Option.noConfusion h
    · rcases h2 : convFragmentsNonIncr jsonLoads lps rest with _ | evs <;> simp only [h2] at h
      · exact Option.noConfusion h
      · injection h with h3
        subst h3
        intro e he
        rcases List.mem_cons.mp he with rfl | he2
        · rfl
        · exact ih h2 e he2

lemma convProcessChunk_progressOnly {jsonLoads : String → JsonResult} {inc : Bool}
    {choice : OpenAIChatCompletionChunkChoice} {st : ConvState}
    {r : ConvState × List ChatCompletionResponseEvent × List String}
    (h : convProcessChunk jsonLoads inc choice st = some r) : progressOnly r.2.1 := by
  dsimp only [convProcessChunk] at h
  have hcontent : progressOnly
      (if pyTruthyOptStr choice.delta.content then
        [progressEv (.textDelta (choice.delta.content.getD ""))
          none (_convert_openai_logprobs choice.logprobs)]
      else []) := by
    split
    · intro e he
      rw [List.mem_singleton] at he
      subst he
      rfl
    · exact progressOnly_nil
  split at h
  case _ tc tcs heq =>
    split at h
    · rcases h1 : convFragmentsIncr (_convert_openai_logprobs choice.logprobs) (tc :: tcs) { st with stop_reason := some (_convert_openai_finish_reason choice.finish_reason) } with _ | ⟨st2, evs⟩ <;>
        simp only [h1] at h
      · exact Option.noConfusion h
      · injection h with h2
        subst h2
        exact progressOnly_append hcontent (convFragmentsIncr_progressOnly h1)
    · rcases h1 : convFragmentsNonIncr jsonLoads
          (_convert_openai_logprobs choice.logprobs) (tc :: tcs) with _ | evs <;>
        simp only [h1] at h
      · exact Option.noConfusion h
      · injection h with h2
        subst h2
        exact progressOnly_append hcontent (convFragmentsNonIncr_progressOnly h1)
  case _ =>
    split at h <;> (injection h with h2; subst h2)
    · intro e he
      rw [List.mem_singleton] at he
      subst he
      rfl
    · exact progressOnly_nil

lemma convLoop_progressOnly {jsonLoads : String → JsonResult} {inc : Bool}
    {chunks : List OpenAIChatCompletionChunkChoice} {st : ConvState}
    {r : ConvState × List ChatCompletionResponseEvent × List String}
    (h : convLoop jsonLoads inc chunks st = some r) : progressOnly r.2.1 := by
  induction chunks generalizing st r with
  | nil =>
    dsimp only [convLoop] at h
    injection h with h2
    subst h2
    exact progressOnly_nil
  | cons c rest ih =>
    dsimp only [convLoop] at h
    rcases h1 : convProcessChunk jsonLoads inc c st with _ | ⟨st2, evs, ws⟩ <;> simp only [h1] at h
    · exact Option.noConfusion h
    · rcases h2 : convLoop jsonLoads inc rest st2 with _ | ⟨st3, evs2, ws2⟩ <;> simp only [h2] at h
      · exact Option.noConfusion h
      · injection h with h3
        subst h3
        exact progressOnly_append (convProcessChunk_progressOnly h1) (ih h2)

lemma convFinalizeBuf_progressOnly {jsonLoads : String → JsonResult}
    {sr : Option StopReason} {b : ToolCallBuffer} {r : List ChatCompletionResponseEvent}
    (h : convFinalizeBuf jsonLoads sr b = some r) : progressOnly r := by
  dsimp only [convFinalizeBuf] at h
  repeat' split at h
  all_goals first
    | exact Option.noConfusion h
    | (injection h with h2; subst h2; intro e he;
       first
        | exact (List.not_mem_nil e he).elim
        | (rcases List.mem_cons.mp he with rfl | he2
           · rfl
           · rw [List.mem_singleton] at he2; subst he2; rfl))

lemma convFinalize_progressOnly {jsonLoads : String → JsonResult}
    {sr : Option StopReason} {bufs : List (Nat × ToolCallBuffer)}
    {r : List ChatCompletionResponseEvent}
    (h : convFinalize jsonLoads sr bufs = some r) : progressOnly r := by
  induction bufs generalizing r with
  | nil =>
    dsimp only [convFinalize] at h
    injection h with h2
    subst h2
    exact progressOnly_nil
  | cons hd rest ih =>
    dsimp only [convFinalize] at h
    rcases h1 : convFinalizeBuf jsonLoads sr hd.2 with _ | evs <;> simp only [h1] at h
    · exact Option.noConfusion h
    · rcases h2 : convFinalize jsonLoads sr rest with _ | evs2 <;> simp only [h2] at h
      · exact Option.noConfusion h
      · injection h with h3
        subst h3
        exact progressOnly_append (convFinalizeBuf_progressOnly h1) (ih h2)

/-! ## C1: stream lifecycle -/

/-- C1, counterexample. The claim asserts that for every finite input chunk
stream both machines produce exactly one `start` and one `complete` event.
For `convert_openai_chat_completion_stream` (incremental mode) the one-chunk
stream whose delta carries a single tool-call fragment with a `function`
having neither a name nor arguments reaches the
`yield ... tool_call=delta ...` statement with the local `delta` never
assigned, raising `UnboundLocalError`: the generator dies after the `start`
event and no `complete` event is ever produced. -/
theorem C1_counterexample :
    ¬ ∃ evs ws, convert_openai_chat_completion_stream jsonLoadsFail true
        [emptyFunctionChunk] = some (evs, ws) ∧ streamEventInvariant evs := by
  rintro ⟨evs, ws, h, _⟩
  have : convert_openai_chat_completion_stream jsonLoadsFail true
      [emptyFunctionChunk] = none := rfl
  rw [this] at h
  exact Option.noConfusion h

/-- C1, amended. `process_chat_completion_stream_response` satisfies the
lifecycle invariant for every finite stream; the wire-incremental
`convert_openai_chat_completion_stream` satisfies it whenever it runs to
completion (no exception escapes the generator): exactly one `start` and one
`complete`, the `start` first and the `complete` last, both with empty
text. -/
theorem C1_amended :
    (∀ (decode : DecodeAssistantMessage) (stream : List OpenAICompatCompletionChoice)
        (request : ChatCompletionRequest),
        streamEventInvariant (process_chat_completion_stream_response decode stream request).1) ∧
    (∀ (jsonLoads : String → JsonResult) (enable_incremental_tool_calls : Bool)
        (stream : List OpenAIChatCompletionChunkChoice)
        (evs : List ChatCompletionResponseEvent) (ws : List String),
        convert_openai_chat_completion_stream jsonLoads enable_incremental_tool_calls stream
          = some (evs, ws) →
        streamEventInvariant evs) := by
  constructor
  · intro decode stream request
    rcases h1 : procLoop stream ⟨"", false, none⟩ with ⟨st, loopEvs⟩
    rcases h2 : procFinalize decode request st with ⟨finEvs, warns⟩
    have hl := procLoop_progressOnly stream ⟨"", false, none⟩
    rw [h1] at hl
    have hf := procFinalize_progressOnly decode request st
    rw [h2] at hf
    have hshape := streamEventInvariant_shape (loopEvs ++ finEvs) st.stop_reason
      (progressOnly_append hl hf)
    simp only [process_chat_completion_stream_response, h1, h2]
    simpa [List.append_assoc] using hshape
  · intro jsonLoads inc stream evs ws h
    unfold convert_openai_chat_completion_stream at h
    rcases h1 : convLoop jsonLoads inc stream ⟨none, [], none⟩ with _ | ⟨st, evs1, ws1⟩ <;>
      simp only [h1] at h
    · exact Option.noConfusion h
    · rcases h2 : convFinalize jsonLoads st.stop_reason st.buffers with _ | finEvs <;>
        simp only [h2] at h
      · exact Option.noConfusion h
      · injection h with h3
        injection h3 with h4 h5
        subst h4
        have hl := convLoop_progressOnly h1
        have hf := convFinalize_progressOnly h2
        have := streamEventInvariant_shape (evs1 ++ finEvs) st.stop_reason
          (progressOnly_append hl hf)
        simpa [List.append_assoc] using this

/-- C1, witness for the amended theorem. -/
theorem C1_witness :
    streamEventInvariant [startEvent, completeEvent none] :=
  C1_amended.2 jsonLoadsFail true [] [startEvent, completeEvent none] [] rfl

/-! ## C2: end-of-turn marker stripping in the non-streaming normalizer -/

/-- C2: for every non-streaming completion response whose first choice's raw
text ends with `<|eot_id|>`, `process_completion_response` strips exactly that
suffix (the Python slice `text[: -len(marker)]`) and sets
`stop_reason = end_of_turn`, for every value of the upstream `finish_reason`
field (the hypotheses say nothing about `finish_reason`; the logprobs
hypothesis only requires that the logprobs translation does not raise). -/
theorem C2_eot_marker (response : OpenAICompatCompletionResponse)
    (choice : OpenAICompatCompletionChoice) (t : String)
    (lps : Option (List TokenLogProbs))
    (h1 : response.choices.head? = some choice)
    (h2 : choice.text = some t)
    (h3 : pyEndsWith t "<|eot_id|>" = true)
    (h4 : convert_openai_completion_logprobs choice.logprobs = .ok lps) :
    process_completion_response response =
      .ok ⟨StopReason.end_of_turn, pyStripRight t ("<|eot_id|>".length), lps,
           convert_vllm_completion_prompt_logprobs choice.prompt_logprobs⟩ := by
  simp [process_completion_response, h1, h2, h3, h4]

theorem C2_witness :
    pyEndsWith "hello<|eot_id|>" "<|eot_id|>" = true ∧
    process_completion_response ⟨[choiceScenarioC]⟩ =
      .ok ⟨StopReason.end_of_turn, "hello", none, none⟩ := by
  refine ⟨by decide, ?_⟩
  have h := C2_eot_marker ⟨[choiceScenarioC]⟩ choiceScenarioC "hello<|eot_id|>" none
    rfl rfl (by decide) rfl
  rw [h]
  rfl

/-- C8, counterexample. A TopK strategy is not produced by temperature 0, yet
translating it to wire form loses it: the wire triple carries no temperature
or top_p for TopK, and converting back yields `TopP 1.0 1.0`, not an
equivalent strategy. -/
theorem C8_counterexample :
    (roundtripSamplingParams samplingTopK5).strategy ≠ SamplingStrategy.topK 5 ∧
    (roundtripSamplingParams samplingTopK5).strategy = SamplingStrategy.topP 1 1 := by
  constructor
  · decide
  · rfl

lemma get_sampling_options_strategy_fields (p : SamplingParams) :
    (get_sampling_options (some p)).temperature = (get_sampling_strategy_options p).temperature ∧
    (get_sampling_options (some p)).top_p = (get_sampling_strategy_options p).top_p := by
  unfold get_sampling_options
  rcases hm : p.max_tokens with _ | m <;>
    rcases hr : p.repetition_penalty with _ | rp <;>
    rcases hs : p.stop with _ | sl <;>
    rcases hp : p.prompt_logprobs with _ | pl <;>
    simp only [hm, hr, hs, hp] <;>
    first
      | (split_ifs <;> simp)
      | simp

/-- C8, amended. The round trip preserves the strategy for `TopP` strategies
with temperature outside {0} (the claim's intent); `TopK` strategies, which
the wire triple cannot represent, are excluded. -/
theorem C8_amended (params : SamplingParams) (t p : Rat)
    (hs : params.strategy = SamplingStrategy.topP t p) (ht : t ≠ 0) :
    (roundtripSamplingParams params).strategy = SamplingStrategy.topP t p := by
  have hfields := get_sampling_options_strategy_fields params
  have htemp : (get_sampling_options (some params)).temperature = some t := by
    rw [hfields.1]
    simp [get_sampling_strategy_options, hs]
  have htop : (get_sampling_options (some params)).top_p = some p := by
    rw [hfields.2]
    simp [get_sampling_strategy_options, hs]
  unfold roundtripSamplingParams _convert_openai_sampling_params
  dsimp only
  rw [htemp, htop]
  rcases hmx : (get_sampling_options (some params)).max_tokens with _ | m <;>
    simp [ht]

/-- C8, witness for the amended theorem. -/
theorem C8_witness :
    ({ strategy := SamplingStrategy.topP 2 (1/2) } : SamplingParams).strategy
        = SamplingStrategy.topP 2 (1/2) ∧
    (2 : Rat) ≠ 0 ∧
    (roundtripSamplingParams { strategy := SamplingStrategy.topP 2 (1/2) }).strategy
        = SamplingStrategy.topP 2 (1/2) :=
  ⟨rfl, by norm_num,
   C8_amended { strategy := SamplingStrategy.topP 2 (1/2) } 2 (1/2) rfl (by norm_num)⟩

/-- C9: evaluation of `convert_openai_completion_logprobs` at the failing
inputs. The claimed selected-token zipping branch is unreachable: because the
pydantic model always has the `top_logprobs` attribute, shape (b) takes the
`top_logprobs` branch and raises `TypeError` iterating `None` instead of
zipping tokens with their probabilities; and a present-but-empty
`top_logprobs` list yields an empty result list, which the claim forbids. -/
theorem C9_code_evaluation :
    convert_openai_completion_logprobs (some togetherShapeLogprobs) = .error () ∧
    convert_openai_completion_logprobs (some { top_logprobs := some [] }) = .ok (some []) ∧
    convert_openai_completion_logprobs none = .ok none :=
  ⟨rfl, rfl, rfl⟩

/-! ## C10: empty chunks are a no-op in the text-marker machine -/

/-- C10: a chunk with a falsy `finish_reason` and falsy extracted text yields
no event, does not break the loop, and leaves the buffer, the `ipython` flag
and the resolved stop reason untouched. -/
theorem C10_empty_chunk_frame (choice : OpenAICompatCompletionChoice) (st : ProcState)
    (h1 : truthyFinish choice = false)
    (h2 : pyTruthyOptStr (text_from_choice choice) = false) :
    procStep choice st = (st, [], false) := by
  simp [procStep, h1, h2]

/-- C10, witness. -/
theorem C10_witness :
    truthyFinish {} = false ∧
    pyTruthyOptStr (text_from_choice {}) = false ∧
    procStep {} ⟨"buf", true, some StopReason.end_of_message⟩ =
      (⟨"buf", true, some StopReason.end_of_message⟩, [], false) :=
  ⟨rfl, rfl, C10_empty_chunk_frame {} ⟨"buf", true, some StopReason.end_of_message⟩ rfl rfl⟩

/-- C4: evaluation of the code at the failing input. One delta carries two
parallel tool-call fragments at indices 0 and 1. The warning (whose text
promises "using the first, ignoring the rest") is emitted, but the loop
`for tool_call in choice.delta.tool_calls` then processes *every* fragment:
index 1 gets its own buffer and its own `in_progress` event (`"g("`), and at
end of stream both buffers are finalized. The claim (and the code's own
warning message) says no event is ever produced for index 1. -/
theorem C4_code_evaluation :
    convert_openai_chat_completion_stream jsonLoadsFail true [parallelChunk] =
      some ([startEvent,
             progressEv (.toolCallDelta (.text "f(") .in_progress) none none,
             progressEv (.toolCallDelta (.text "g(") .in_progress) none none,
             progressEv (.toolCallDelta (.text ")") .in_progress) none none,
             progressEv (.toolCallDelta (.text "f()") .failed) (some .end_of_turn) none,
             progressEv (.toolCallDelta (.text ")") .in_progress) none none,
             progressEv (.toolCallDelta (.text "g()") .failed) (some .end_of_turn) none,
             completeEvent (some .end_of_turn)],
            [multipleToolCallsWarning]) ∧
    (convert_openai_chat_completion_stream jsonLoadsFail true [parallelChunk]).map
        (fun r => inProgressPayloads r.1) = some ["f(", "g(", ")", ")"] := by
  constructor
  · rfl
  · rfl

/-- C5, counterexample. In `convert_openai_chat_completion_stream` the
assignment `stop_reason = _convert_openai_finish_reason(finish_reason) or
stop_reason` always overwrites, because `_convert_openai_finish_reason`
returns a truthy enum member even for a null finish_reason. For the stream
`[finish_reason="length", finish_reason=null]` the first non-null
finish_reason is `"length"` (which maps to `out_of_tokens`), yet the complete
event carries `end_of_turn`: the later chunk overrode it. -/
theorem C5_counterexample :
    convert_openai_chat_completion_stream jsonLoadsFail true
        [lengthFinishChunk, nullFinishChunk] =
      some ([startEvent, completeEvent (some .end_of_turn)], []) ∧
    _convert_openai_finish_reason (some "length") = .out_of_tokens ∧
    StopReason.end_of_turn ≠ StopReason.out_of_tokens := by
  refine ⟨rfl, rfl, ?_⟩
  intro h
  exact StopReason.noConfusion h

lemma procLoop_stops_at_finish (pre : List OpenAICompatCompletionChoice)
    (fc : OpenAICompatCompletionChoice) (rest : List OpenAICompatCompletionChoice)
    (st : ProcState) (h : truthyFinish fc = true) :
    procLoop (pre ++ fc :: rest) st = procLoop (pre ++ [fc]) st := by
  induction pre generalizing st with
  | nil =>
    simp only [List.nil_append]
    unfold procLoop
    have hstep : (procStep fc st).2.2 = true := by
      unfold procStep
      rw [h]
      rfl
    rcases hs : procStep fc st with ⟨st2, evs, brk⟩
    rw [hs] at hstep
    simp only at hstep
    subst hstep
    rfl
  | cons c pre ih =>
    simp only [List.cons_append]
    unfold procLoop
    rcases hs : procStep c st with ⟨st2, evs, brk⟩
    cases brk
    · simp only [ih st2]
    · rfl

lemma convProcessFragmentIncr_stop {lps : Option (List TokenLogProbs)}
    {tc : OpenAIChoiceDeltaToolCall} {st : ConvState}
    {r : ConvState × List ChatCompletionResponseEvent}
    (h : convProcessFragmentIncr lps tc st = some r) :
    r.1.stop_reason = st.stop_reason := by
  dsimp only [convProcessFragmentIncr] at h
  repeat' split at h
  all_goals first
    | exact Option.noConfusion h
    | (injection h with h2; subst h2; rfl)

lemma convFragmentsIncr_stop {lps : Option (List TokenLogProbs)}
    {tcs : List OpenAIChoiceDeltaToolCall} {st : ConvState}
    {r : ConvState × List ChatCompletionResponseEvent}
    (h : convFragmentsIncr lps tcs st = some r) :
    r.1.stop_reason = st.stop_reason := by
  induction tcs generalizing st r with
  | nil =>
    dsimp only [convFragmentsIncr] at h
    injection h with h2
    subst h2
    rfl
  | cons tc rest ih =>
    dsimp only [convFragmentsIncr] at h
    rcases h1 : convProcessFragmentIncr lps tc st with _ | ⟨st2, evs⟩ <;> simp only [h1] at h
    · exact Option.noConfusion h
    · rcases h2 : convFragmentsIncr lps rest st2 with _ | ⟨st3, evs2⟩ <;> simp only [h2] at h
      · exact Option.noConfusion h
      · injection h with h3
        subst h3
        have := convProcessFragmentIncr_stop h1
        rw [ih h2]
        simpa using this

lemma convProcessChunk_stop {jsonLoads : String → JsonResult} {inc : Bool}
    {choice : OpenAIChatCompletionChunkChoice} {st : ConvState}
    {r : ConvState × List ChatCompletionResponseEvent × List String}
    (h : convProcessChunk jsonLoads inc choice st = some r) :
    r.1.stop_reason = some (_convert_openai_finish_reason choice.finish_reason) := by
  dsimp only [convProcessChunk] at h
  split at h
  case _ tc tcs heq =>
    split at h
    · rcases h1 : convFragmentsIncr (_convert_openai_logprobs choice.logprobs) (tc :: tcs) { st with stop_reason := some (_convert_openai_finish_reason choice.finish_reason) } with _ | ⟨st2, evs⟩ <;>
        simp only [h1] at h
      · exact Option.noConfusion h
      · injection h with h2
        subst h2
        exact convFragmentsIncr_stop h1
    · rcases h1 : convFragmentsNonIncr jsonLoads
          (_convert_openai_logprobs choice.logprobs) (tc :: tcs) with _ | evs <;>
        simp only [h1] at h
      · exact Option.noConfusion h
      · injection h with h2
        subst h2
        rfl
  case _ =>
    split at h <;> (injection h with h2; subst h2; rfl)

lemma convLoop_stop {jsonLoads : String → JsonResult} {inc : Bool}
    {chunks : List OpenAIChatCompletionChunkChoice} {st : ConvState}
    {r : ConvState × List ChatCompletionResponseEvent × List String}
    (h : convLoop jsonLoads inc chunks st = some r) :
    r.1.stop_reason =
      (match chunks.getLast? with
       | some c => some (_convert_openai_finish_reason c.finish_reason)
       | none => st.stop_reason) := by
  induction chunks generalizing st r with
  | nil =>
    dsimp only [convLoop] at h
    injection h with h2
    subst h2
    rfl
  | cons c rest ih =>
    dsimp only [convLoop] at h
    rcases h1 : convProcessChunk jsonLoads inc c st with _ | ⟨st2, evs, ws⟩ <;>
      simp only [h1] at h
    · exact Option.noConfusion h
    · rcases h2 : convLoop jsonLoads inc rest st2 with _ | ⟨st3, evs2, ws2⟩ <;>
        simp only [h2] at h
      · exact Option.noConfusion h
      · injection h with h3
        subst h3
        have hstep := convProcessChunk_stop h1
        have hrest := ih h2
        cases rest with
        | nil =>
          simp only [List.getLast?_nil] at hrest
          simp only [List.getLast?_singleton]
          simp only at hrest hstep ⊢
          rw [hrest]
          exact hstep
        | cons c2 rest2 =>
          simpa [List.getLast?_cons_cons] using hrest

/-- C5, amended. In `process_chat_completion_stream_response` the loop breaks
at the first chunk with a truthy `finish_reason`; everything after that chunk
is never read, so no later chunk's finish_reason can influence the output
(the finish_reason sets the stop reason only when no text marker already
resolved one). In `convert_openai_chat_completion_stream` every chunk
unconditionally overwrites the stop reason with the conversion of its own
finish_reason (a null finish_reason converts to `end_of_turn`), so the
`complete` event carries the conversion of the *last* chunk's finish_reason,
not the first non-null one. -/
theorem C5_amended :
    (∀ (decode : DecodeAssistantMessage) (request : ChatCompletionRequest)
        (pre : List OpenAICompatCompletionChoice) (fc : OpenAICompatCompletionChoice)
        (rest : List OpenAICompatCompletionChoice),
        truthyFinish fc = true →
        process_chat_completion_stream_response decode (pre ++ fc :: rest) request =
          process_chat_completion_stream_response decode (pre ++ [fc]) request) ∧
    (∀ (jsonLoads : String → JsonResult) (enable_incremental_tool_calls : Bool)
        (stream : List OpenAIChatCompletionChunkChoice)
        (evs : List ChatCompletionResponseEvent) (ws : List String)
        (c : OpenAIChatCompletionChunkChoice),
        convert_openai_chat_completion_stream jsonLoads enable_incremental_tool_calls stream
          = some (evs, ws) →
        stream.getLast? = some c →
        evs.getLast? =
          some (completeEvent (some (_convert_openai_finish_reason c.finish_reason)))) := by
  constructor
  · intro decode request pre fc rest h
    unfold process_chat_completion_stream_response
    rw [procLoop_stops_at_finish pre fc rest ⟨"", false, none⟩ h]
  · intro jsonLoads inc stream evs ws c h hlast
    unfold convert_openai_chat_completion_stream at h
    rcases h1 : convLoop jsonLoads inc stream ⟨none, [], none⟩ with _ | ⟨st, evs1, ws1⟩ <;>
      simp only [h1] at h
    · exact Option.noConfusion h
    · rcases h2 : convFinalize jsonLoads st.stop_reason st.buffers with _ | finEvs <;>
        simp only [h2] at h
      · exact Option.noConfusion h
      · injection h with h3
        injection h3 with h4 h5
        subst h4
        have hstop := convLoop_stop h1
        rw [hlast] at hstop
        simp only at hstop
        rw [show startEvent :: (evs1 ++ finEvs ++ [completeEvent st.stop_reason])
              = (startEvent :: (evs1 ++ finEvs)) ++ [completeEvent st.stop_reason] by simp,
            List.getLast?_concat, hstop]

/-- C5, witness for the amended theorem: the text-marker machine ignores a
chunk after the finish-bearing one, and the incremental converter's complete
event carries the conversion of the last chunk's (null) finish_reason. -/
theorem C5_witness :
    process_chat_completion_stream_response decodeTrivial
        ([] ++ stopFinishChoice :: [plainTextChoice]) ⟨[]⟩ =
      process_chat_completion_stream_response decodeTrivial ([] ++ [stopFinishChoice]) ⟨[]⟩ ∧
    ([startEvent, completeEvent (some .end_of_turn)] :
        List ChatCompletionResponseEvent).getLast? =
      some (completeEvent (some (_convert_openai_finish_reason nullFinishChunk.finish_reason))) :=
  ⟨C5_amended.1 decodeTrivial ⟨[]⟩ [] stopFinishChoice [plainTextChoice] rfl,
   C5_amended.2 jsonLoadsFail true [lengthFinishChunk, nullFinishChunk]
     [startEvent, completeEvent (some .end_of_turn)] [] nullFinishChunk rfl rfl⟩

/-! ## C6: tool_calls finish reason in the non-streaming chat normalizer -/

/-- C6: when `finish_reason == "tool_calls"` and the message carries tool
calls, the response is structured (empty content, parsed tool calls,
`end_of_turn`) when every call converts, and degrades to the JSON
serialization of the whole converted set with no structured calls when any
call fails to convert. -/
theorem C6_tool_calls_branch (jsonLoads : String → JsonResult)
    (dumps : List ConvertedToolCall → String) (decode : DecodeAssistantMessage)
    (response : OpenAICompatCompletionResponse) (request : ChatCompletionRequest)
    (choice : OpenAICompatCompletionChoice) (msg : CompatChoiceMessage)
    (tcs : List WireToolCallFunction)
    (h1 : response.choices.head? = some choice)
    (h2 : choice.finish_reason = some "tool_calls")
    (h3 : choice.message = some msg)
    (h4 : msg.tool_calls = some tcs)
    (h5 : tcs ≠ []) :
    ((tcs.map (convert_tool_call jsonLoads)).any (fun c => c.isUnparseable) = false →
      process_chat_completion_response jsonLoads dumps decode response request =
        some (⟨⟨"", some .end_of_turn,
          (tcs.map (convert_tool_call jsonLoads)).filterMap (fun c => c.getValid)⟩,
          none⟩, [])) ∧
    ((tcs.map (convert_tool_call jsonLoads)).any (fun c => c.isUnparseable) = true →
      process_chat_completion_response jsonLoads dumps decode response request =
        some (⟨⟨dumps (tcs.map (convert_tool_call jsonLoads)), some .end_of_turn, []⟩,
          none⟩, [])) := by
  cases tcs with
  | nil => exact absurd rfl h5
  | cons tc rest =>
    constructor <;> intro hany <;>
      (simp only [process_chat_completion_response, h1, h2, h3, h4]
       rw [hany]
       simp)

/-- C6, witness: Scenario A — both calls parse; the result has empty content,
two structured tool calls and `end_of_turn`. -/
theorem C6_witness :
    process_chat_completion_response jsonLoadsEmptyObj (fun _ => "") decodeTrivial
        ⟨[scenarioAChoice]⟩ ⟨[⟨"t1", none, []⟩, ⟨"t2", none, []⟩]⟩ =
      some (⟨⟨"", some .end_of_turn,
        [⟨"1", "t1", [], "A"⟩, ⟨"2", "t2", [], "A"⟩]⟩, none⟩, []) := by
  have h := (C6_tool_calls_branch jsonLoadsEmptyObj (fun _ => "") decodeTrivial
    ⟨[scenarioAChoice]⟩ ⟨[⟨"t1", none, []⟩, ⟨"t2", none, []⟩]⟩ scenarioAChoice
    ⟨none, some [scenarioAToolCall1, scenarioAToolCall2]⟩
    [scenarioAToolCall1, scenarioAToolCall2]
    rfl rfl rfl rfl (by intro hx; exact List.noConfusion hx)).1 rfl
  rw [h]
  rfl

/-! ## C7: tool-call filtering against the request's declared tool set -/

/-- C7: for a non-`tool_calls` finish reason, when the decoded message
contains tool calls: a request declaring zero tools discards every decoded
call and restores the raw choice text as content; otherwise exactly the calls
naming tools absent from the request are dropped, one warning per dropped
call, and if any call was dropped the content is replaced by the raw choice
text (if none was dropped, the decoded message passes through). -/
theorem C7_filter_by_request_tools (jsonLoads : String → JsonResult)
    (dumps : List ConvertedToolCall → String) (decode : DecodeAssistantMessage)
    (response : OpenAICompatCompletionResponse) (request : ChatCompletionRequest)
    (choice : OpenAICompatCompletionChoice) (rawText : String)
    (h1 : response.choices.head? = some choice)
    (h2 : ¬ choice.finish_reason = some "tool_calls")
    (h3 : (decode (text_from_choice choice)
            (some (get_stop_reason choice.finish_reason))).tool_calls ≠ [])
    (h4 : text_from_choice choice = some rawText) :
    (request.tools = [] →
      process_chat_completion_response jsonLoads dumps decode response request =
        some (⟨⟨rawText,
          (decode (text_from_choice choice)
            (some (get_stop_reason choice.finish_reason))).stop_reason, []⟩, none⟩, [])) ∧
    (request.tools ≠ [] →
      (let raw := decode (text_from_choice choice)
        (some (get_stop_reason choice.finish_reason));
       let names := requestToolNames request;
       let kept := raw.tool_calls.filter (fun t => names.contains t.tool_name);
       let warns := (raw.tool_calls.filter (fun t => !names.contains t.tool_name)).map
         (fun t => "Tool " ++ t.tool_name ++ " not found in request tools");
       process_chat_completion_response jsonLoads dumps decode response request =
         if kept.length < raw.tool_calls.length then
           some (⟨⟨rawText, raw.stop_reason, kept⟩, none⟩, warns)
         else
           some (⟨⟨raw.content, raw.stop_reason, raw.tool_calls⟩, none⟩, warns))) := by
  rw [h4] at h3 ⊢
  constructor
  · intro htools
    simp [process_chat_completion_response, h1, h2, h3, h4, htools]
  · intro htools
    dsimp only
    split
    next hcond =>
      simp at hcond
      simp [process_chat_completion_response, h1, h2, h3, h4, htools, hcond]
    next hcond =>
      simp at hcond
      have hcond2 := not_lt.mpr hcond
      simp [process_chat_completion_response, h1, h2, h3, h4, htools, hcond2]

/-- C7, witness: Scenario B — the decoded message carries a tool call but the
request declares zero tools; the call is discarded and the raw text restored. -/
theorem C7_witness :
    process_chat_completion_response jsonLoadsFail (fun _ => "") decodeWithToolCall
        ⟨[scenarioBChoice]⟩ ⟨[]⟩ =
      some (⟨⟨"raw text", some .end_of_turn, []⟩, none⟩, []) := by
  have h := (C7_filter_by_request_tools jsonLoadsFail (fun _ => "") decodeWithToolCall
      ⟨[scenarioBChoice]⟩ ⟨[]⟩ scenarioBChoice "raw text" rfl
      (by intro hx; simp [scenarioBChoice] at hx)
      (by intro hx; simp [decodeWithToolCall] at hx) rfl).1 rfl
  rw [h]
  rfl

/-! ## C3: incremental tool-call fragment concatenation -/

lemma concatStrings_cons (x : String) (l : List String) :
    concatStrings (x :: l) = x ++ concatStrings l := by
  have haux : ∀ (l : List String) (a : String),
      List.foldl (fun u v => u ++ v) a l = a ++ List.foldl (fun u v => u ++ v) "" l := by
    intro l
    induction l with
    | nil => intro a; simp [String.append_empty]
    | cons y l ih =>
      intro a
      simp only [List.foldl_cons]
      rw [ih (a ++ y), ih ("" ++ y), String.append_assoc, String.empty_append]
  simp only [concatStrings, List.foldl_cons]
  rw [haux l ("" ++ x), String.empty_append]

lemma concatStrings_nil : concatStrings [] = "" := rfl

lemma concatStrings_append (a b : List String) :
    concatStrings (a ++ b) = concatStrings a ++ concatStrings b := by
  induction a with
  | nil => simp [concatStrings_nil, List.nil_append, String.empty_append]
  | cons x l ih =>
    simp only [List.cons_append, concatStrings_cons, ih, String.append_assoc]

lemma inProgressPayloads_append (a b : List ChatCompletionResponseEvent) :
    inProgressPayloads (a ++ b) = inProgressPayloads a ++ inProgressPayloads b := by
  simp [inProgressPayloads, List.filterMap_append]

lemma convProcessChunk_noTool (jsonLoads : String → JsonResult)
    (c : OpenAIChatCompletionChunkChoice) (st : ConvState) (h : chunkNoToolCalls c) :
    ∃ evs ws, convProcessChunk jsonLoads true c st =
        some ({ st with stop_reason := some (_convert_openai_finish_reason c.finish_reason) },
              evs, ws) ∧
      inProgressPayloads evs = [] := by
  rcases h with h | h <;> dsimp only [convProcessChunk] <;> rw [h] <;>
    by_cases hc : pyTruthyOptStr c.delta.content <;>
      simp [hc, inProgressPayloads, progressEv]

lemma convProcessChunk_nameOnly (jsonLoads : String → JsonResult) (i : Nat)
    (cid nm : String) (c : OpenAIChatCompletionChunkChoice) (st : ConvState)
    (h : chunkNameOnlyAt i cid nm c) (hnm : nm ≠ "") (hb : st.buffers = []) :
    ∃ evs ws, convProcessChunk jsonLoads true c st =
      some (⟨some (_convert_openai_finish_reason c.finish_reason),
             [(i, ⟨some cid, some nm, "", nm ++ "("⟩)],
             some (nm ++ "(")⟩, evs, ws) ∧
      inProgressPayloads evs = [nm ++ "("] := by
  rw [chunkNameOnlyAt] at h
  dsimp only [convProcessChunk]
  rw [h]
  by_cases hc : pyTruthyOptStr c.delta.content <;>
    simp [hc, convFragmentsIncr, convProcessFragmentIncr, lookupBuf, updateBuf, hb, hnm,
          inProgressPayloads, progressEv, String.empty_append]

lemma convProcessChunk_argOnly (jsonLoads : String → JsonResult) (i : Nat) (a : String)
    (c : OpenAIChatCompletionChunkChoice) (st : ConvState) (b : ToolCallBuffer)
    (h : chunkArgOnlyAt i a c) (ha : a ≠ "") (hb : st.buffers = [(i, b)]) :
    ∃ evs ws, convProcessChunk jsonLoads true c st =
      some (⟨some (_convert_openai_finish_reason c.finish_reason),
             [(i, ⟨b.call_id, b.name, b.arguments ++ a, b.content ++ a⟩)],
             some a⟩, evs, ws) ∧
      inProgressPayloads evs = [a] := by
  obtain ⟨fid, h⟩ := h
  dsimp only [convProcessChunk]
  rw [h]
  by_cases hc : pyTruthyOptStr c.delta.content <;>
    simp [hc, convFragmentsIncr, convProcessFragmentIncr, lookupBuf, updateBuf, hb, ha,
          inProgressPayloads, progressEv]

lemma convLoop_noTool (jsonLoads : String → JsonResult)
    (pre : List OpenAIChatCompletionChunkChoice) :
    ∀ st : ConvState, (∀ c ∈ pre, chunkNoToolCalls c) →
    ∃ st2 evs ws, convLoop jsonLoads true pre st = some (st2, evs, ws) ∧
      st2.buffers = st.buffers ∧ st2.last_delta = st.last_delta ∧
      inProgressPayloads evs = [] := by
  induction pre with
  | nil =>
    intro st _
    exact ⟨st, [], [], rfl, rfl, rfl, rfl⟩
  | cons c rest ih =>
    intro st h
    obtain ⟨evs, ws, hstep, hpay⟩ :=
      convProcessChunk_noTool jsonLoads c st (h c (List.mem_cons_self c rest))
    obtain ⟨st2, evs2, ws2, hloop, hbuf, hlast, hpay2⟩ :=
      ih ⟨some (_convert_openai_finish_reason c.finish_reason), st.buffers, st.last_delta⟩
        (fun x hx => h x (List.mem_cons_of_mem c hx))
    refine ⟨st2, evs ++ evs2, ws ++ ws2, ?_, ?_, ?_, ?_⟩
    · simp only [convLoop, hstep, hloop]
    · simpa using hbuf
    · simpa using hlast
    · rw [inProgressPayloads_append, hpay, hpay2]
      rfl

lemma convLoop_argOnly (jsonLoads : String → JsonResult) (i : Nat)
    (argChunks : List OpenAIChatCompletionChunkChoice) :
    ∀ (st : ConvState) (b : ToolCallBuffer),
      st.buffers = [(i, b)] →
      (∀ c ∈ argChunks, ∃ a, a ≠ "" ∧ chunkArgOnlyAt i a c) →
      ∃ st2 evs ws b2, convLoop jsonLoads true argChunks st = some (st2, evs, ws) ∧
        st2.buffers = [(i, b2)] ∧ b2.name = b.name ∧
        inProgressPayloads evs = argsOfChunks argChunks := by
  induction argChunks with
  | nil =>
    intro st b hb _
    exact ⟨st, [], [], b, rfl, hb, rfl, rfl⟩
  | cons c rest ih =>
    intro st b hb h
    obtain ⟨a, ha, hc⟩ := h c (List.mem_cons_self c rest)
    obtain ⟨evs, ws, hstep, hpay⟩ := convProcessChunk_argOnly jsonLoads i a c st b hc ha hb
    obtain ⟨st2, evs2, ws2, b2, hloop, hbuf, hname, hpay2⟩ :=
      ih ⟨some (_convert_openai_finish_reason c.finish_reason),
          [(i, ⟨b.call_id, b.name, b.arguments ++ a, b.content ++ a⟩)], some a⟩
        ⟨b.call_id, b.name, b.arguments ++ a, b.content ++ a⟩ rfl
        (fun x hx => h x (List.mem_cons_of_mem c hx))
    refine ⟨st2, evs ++ evs2, ws ++ ws2, b2, ?_, hbuf, ?_, ?_⟩
    · simp only [convLoop, hstep, hloop]
    · simpa using hname
    · rw [inProgressPayloads_append, hpay, hpay2]
      obtain ⟨fid, htc⟩ := hc
      simp [argsOfChunks, argOfChunk, htc]

lemma convLoop_append (jsonLoads : String → JsonResult) (inc : Bool)
    (a b : List OpenAIChatCompletionChunkChoice) :
    ∀ st : ConvState, convLoop jsonLoads inc (a ++ b) st =
      (match convLoop jsonLoads inc a st with
       | none => none
       | some (st1, e1, w1) =>
         match convLoop jsonLoads inc b st1 with
         | none => none
         | some (st2, e2, w2) => some (st2, e1 ++ e2, w1 ++ w2)) := by
  induction a with
  | nil =>
    intro st
    simp only [List.nil_append, convLoop]
    rcases convLoop jsonLoads inc b st with _ | ⟨st2, e2, w2⟩ <;> simp
  | cons c rest ih =>
    intro st
    simp only [List.cons_append, convLoop]
    rcases h1 : convProcessChunk jsonLoads inc c st with _ | ⟨st1, e1, w1⟩ <;>
      simp only [h1]
    simp only [List.append_eq]
    rw [ih st1]
    rcases h2 : convLoop jsonLoads inc rest st1 with _ | ⟨st2, e2, w2⟩ <;>
      simp only [h2]
    rcases h3 : convLoop jsonLoads inc b st2 with _ | ⟨st3, e3, w3⟩ <;>
      simp only [h3]
    simp [List.append_assoc]

lemma convFinalize_singleton_payloads (jsonLoads : String → JsonResult)
    (sr : Option StopReason) (i : Nat) (b2 : ToolCallBuffer) (nm : String)
    (hname : b2.name = some nm) (hnm : nm ≠ "")
    {fin : List ChatCompletionResponseEvent}
    (hfin : convFinalize jsonLoads sr [(i, b2)] = some fin) :
    inProgressPayloads fin = [")"] := by
  dsimp only [convFinalize, convFinalizeBuf] at hfin
  rw [hname] at hfin
  have hcond : pyTruthyOptStr (some nm) = true := by simp [pyTruthyOptStr, hnm]
  rw [if_pos hcond] at hfin
  rcases hj : jsonLoads b2.arguments with _ | _ | d <;> simp only [hj] at hfin
  · injection hfin with h2
    subst h2
    simp [inProgressPayloads, progressEv]
  · exact Option.noConfusion hfin
  · rcases hcid : b2.call_id with _ | cid <;> simp only [hcid] at hfin
    · exact Option.noConfusion hfin
    · injection hfin with h2
      subst h2
      simp [inProgressPayloads, progressEv]

/-- C3, counterexample. When one wire fragment carries both the function name
and non-empty argument text, the single `yield` of the fragment loop emits
only the *last* assigned delta (the argument text): the `"foo("` increment is
appended to the buffer's display content but never surfaced as its own event.
The concatenation of the emitted `in_progress` payloads is `"arg)"`, not
`"foo(" ++ "arg" ++ ")"`. -/
theorem C3_counterexample :
    ∃ evs ws, convert_openai_chat_completion_stream jsonLoadsFail true
        [combinedFragmentChunk] = some (evs, ws) ∧
      inProgressPayloads evs = ["arg", ")"] ∧
      concatStrings (inProgressPayloads evs) ≠
        "foo" ++ "(" ++ concatStrings ["arg"] ++ ")" := by
  refine ⟨_, _, rfl, rfl, ?_⟩
  decide

/-- C3, amended. For streams in incremental mode whose tool-call fragments
all address one index, where the function name arrives in a fragment of its
own (one name-only fragment, preceded only by chunks without tool-call
fragments) and every later tool-call fragment carries only non-empty argument
text, the `in_progress` payload sequence is exactly the name increment
`name ++ "("`, each argument increment as its own event, and the closing
`")"`; hence their concatenation is `name ++ "(" ++ arguments ++ ")"`. -/
theorem C3_amended (jsonLoads : String → JsonResult) (i : Nat) (cid nm : String)
    (pre : List OpenAIChatCompletionChunkChoice)
    (nameChunk : OpenAIChatCompletionChunkChoice)
    (argChunks : List OpenAIChatCompletionChunkChoice)
    (evs : List ChatCompletionResponseEvent) (ws : List String)
    (hnm : nm ≠ "")
    (hpre : ∀ c ∈ pre, chunkNoToolCalls c)
    (hname : chunkNameOnlyAt i cid nm nameChunk)
    (hargs : ∀ c ∈ argChunks, ∃ a, a ≠ "" ∧ chunkArgOnlyAt i a c)
    (hconv : convert_openai_chat_completion_stream jsonLoads true
        (pre ++ nameChunk :: argChunks) = some (evs, ws)) :
    inProgressPayloads evs = (nm ++ "(") :: (argsOfChunks argChunks ++ [")"]) ∧
    concatStrings (inProgressPayloads evs) =
      nm ++ "(" ++ concatStrings (argsOfChunks argChunks) ++ ")" := by
  obtain ⟨stA, evsA, wsA, hloopA, hbufA, hlastA, hpayA⟩ :=
    convLoop_noTool jsonLoads pre ⟨none, [], none⟩ hpre
  obtain ⟨evsN, wsN, hstepN, hpayN⟩ :=
    convProcessChunk_nameOnly jsonLoads i cid nm nameChunk stA hname hnm (by rw [hbufA])
  obtain ⟨stB, evsB, wsB, b2, hloopB, hbufB, hnameB, hpayB⟩ :=
    convLoop_argOnly jsonLoads i argChunks
      ⟨some (_convert_openai_finish_reason nameChunk.finish_reason),
       [(i, ⟨some cid, some nm, "", nm ++ "("⟩)], some (nm ++ "(")⟩
      ⟨some cid, some nm, "", nm ++ "("⟩ rfl hargs
  have hloopFull : convLoop jsonLoads true (pre ++ nameChunk :: argChunks) ⟨none, [], none⟩
      = some (stB, evsA ++ (evsN ++ evsB), wsA ++ (wsN ++ wsB)) := by
    rw [convLoop_append jsonLoads true pre (nameChunk :: argChunks) ⟨none, [], none⟩,
        hloopA]
    simp only [convLoop, hstepN, hloopB]
  unfold convert_openai_chat_completion_stream at hconv
  rw [hloopFull] at hconv
  simp only at hconv
  rcases hF : convFinalize jsonLoads stB.stop_reason stB.buffers with _ | fin <;>
    simp only [hF] at hconv
  · exact Option.noConfusion hconv
  · injection hconv with h3
    injection h3 with h4 h5
    rw [hbufB] at hF
    have hb2 : b2.name = some nm := hnameB
    have hfinPay := convFinalize_singleton_payloads jsonLoads stB.stop_reason i b2 nm
      hb2 hnm hF
    have hpart1 : inProgressPayloads evs = (nm ++ "(") :: (argsOfChunks argChunks ++ [")"]) := by
      rw [← h4]
      simp [inProgressPayloads, List.filterMap_append, startEvent, completeEvent]
      rw [show (List.filterMap _ evsA : List String) = inProgressPayloads evsA from rfl,
          show (List.filterMap _ evsN : List String) = inProgressPayloads evsN from rfl,
          show (List.filterMap _ evsB : List String) = inProgressPayloads evsB from rfl,
          show (List.filterMap _ fin : List String) = inProgressPayloads fin from rfl,
          hpayA, hpayN, hpayB, hfinPay]
      simp
    refine ⟨hpart1, ?_⟩
    rw [hpart1, concatStrings_cons, concatStrings_append]
    rw [show concatStrings [")"] = ")" from rfl]
    simp [String.append_assoc]

/-- C3, witness for the amended theorem: Scenario-D-like wire stream
`name "foo"`, arguments `"x="`, `"1"`. -/
theorem C3_witness :
    inProgressPayloads [startEvent,
        progressEv (.toolCallDelta (.text "foo(") .in_progress) none none,
        progressEv (.toolCallDelta (.text "x=") .in_progress) none none,
        progressEv (.toolCallDelta (.text "1") .in_progress) none none,
        progressEv (.toolCallDelta (.text ")") .in_progress) none none,
        progressEv (.toolCallDelta (.text "foo(x=1)") .failed) (some .end_of_turn) none,
        completeEvent (some .end_of_turn)] =
      ("foo" ++ "(") :: (argsOfChunks [argChunkEx1, argChunkEx2] ++ [")"]) :=
  (C3_amended jsonLoadsFail 0 "id0" "foo" [] nameChunkEx [argChunkEx1, argChunkEx2]
    [startEvent,
     progressEv (.toolCallDelta (.text "foo(") .in_progress) none none,
     progressEv (.toolCallDelta (.text "x=") .in_progress) none none,
     progressEv (.toolCallDelta (.text "1") .in_progress) none none,
     progressEv (.toolCallDelta (.text ")") .in_progress) none none,
     progressEv (.toolCallDelta (.text "foo(x=1)") .failed) (some .end_of_turn) none,
     completeEvent (some .end_of_turn)] []
    (by decide)
    (by intro c hc; exact absurd hc (List.not_mem_nil c))
    rfl
    (by
      intro c hc
      rcases List.mem_cons.mp hc with rfl | hc2
      · exact ⟨"x=", by decide, none, rfl⟩
      · rcases List.mem_cons.mp hc2 with rfl | hc3
        · exact ⟨"1", by decide, none, rfl⟩
        · exact absurd hc3 (List.not_mem_nil c))
    rfl).1
